import Mathlib

/-!
Verification of the `MonarchOmimMapper` lookup service (`src/mapper.js`) of the
OMIM-converter repository, together with the Reverse-Index Builder described in
the specification (its implementation, `updateMapping.py`, is not part of the
source tree and is modelled from the spec where needed).

Strings are modelled as Lean `String`s (lists of characters); the JavaScript
string operations used by the code (`trim`, `toUpperCase`,
`replace('OMIM:', '')` — which replaces only the first occurrence of the
pattern) are embedded as executable functions over `List Char`, restricted to
ASCII, which is the alphabet of the identifiers involved.

JSON objects holding the two mapping tables are modelled as association lists
from string keys to records, with first-match lookup (keys of a JSON object are
unique, and insertion overwrites in place, which `insertKey` mirrors). Because
the tables are plain objects inheriting from `Object.prototype`, the JavaScript
bracket access `obj[key] || null` can also surface a truthy inherited member
(`constructor`, `toString`, ...): `bracketOrNull` and the `Js`-suffixed method
variants model that full semantics, while the plain variants model the
accesses whose keys provably avoid the prototype chain.
-/

namespace OmimConverter

/-- A value of the forward table `monarch-omim.json`:
`{ "<KB_ID>": { "externalId": "<digits>", "name": "<string>" } }`. -/
structure FwdRec where
  externalId : String
  name : String
deriving DecidableEq, Repr

/-- A value of the reverse table `omim-monarch.json`:
`{ "<digits>": { "knowledgeBaseId": "<KB_ID>", "name": "<string>" } }`. -/
structure RevRec where
  knowledgeBaseId : String
  name : String
deriving DecidableEq, Repr

/-- A JSON object with values of type `α`: an association list with unique
keys, kept in insertion order. -/
abbrev Table (α : Type) : Type := List (String × α)

/-- Property access `obj[key]` on a JSON object: the value at the first
(hence, keys being unique, the only) matching key. -/
def lookupTable {α : Type} : Table α → String → Option α
  | [], _ => none
  | (k, v) :: rest, x => if k = x then some v else lookupTable rest x

/-- JavaScript / Python dictionary insertion `obj[key] = value`: an existing
key keeps its position and gets the new value, a new key is appended. -/
def insertKey {α : Type} : Table α → String → α → Table α
  | [], k, v => [(k, v)]
  | (k', v') :: rest, k, v =>
    if k' = k then (k', v) :: rest else (k', v') :: insertKey rest k v

/- ### Embedded JavaScript string primitives -/

/-- The whitespace test of JavaScript `String.prototype.trim`, restricted to
the ASCII range: space, tab, line feed, vertical tab, form feed and carriage
return are all removed by ECMAScript `trim`. -/
def jsWhitespace (c : Char) : Bool :=
  c = ' ' || c = '\t' || c = '\n' || c = '\x0b' || c = '\x0c' || c = '\r'

/-- JavaScript `String.prototype.trim` on the character list: drop whitespace
from both ends. -/
def trimList (l : List Char) : List Char :=
  ((l.dropWhile jsWhitespace).reverse.dropWhile jsWhitespace).reverse

/-- JavaScript `s.trim()`. -/
def jsTrim (s : String) : String := ⟨trimList s.data⟩

/-- The lowercase-to-uppercase letter correspondence of ASCII. -/
def upperTable : List (Char × Char) :=
  [('a', 'A'), ('b', 'B'), ('c', 'C'), ('d', 'D'), ('e', 'E'), ('f', 'F'),
   ('g', 'G'), ('h', 'H'), ('i', 'I'), ('j', 'J'), ('k', 'K'), ('l', 'L'),
   ('m', 'M'), ('n', 'N'), ('o', 'O'), ('p', 'P'), ('q', 'Q'), ('r', 'R'),
   ('s', 'S'), ('t', 'T'), ('u', 'U'), ('v', 'V'), ('w', 'W'), ('x', 'X'),
   ('y', 'Y'), ('z', 'Z')]

/-- Look a character up in a character-correspondence table, defaulting to the
character itself. -/
def upperLookup : List (Char × Char) → Char → Char
  | [], c => c
  | (a, b) :: rest, c => if a = c then b else upperLookup rest c

/-- JavaScript `String.prototype.toUpperCase` on one character, restricted to
ASCII: the 26 lowercase letters are mapped to their uppercase forms, every
other character is left unchanged. -/
def jsUpperChar (c : Char) : Char := upperLookup upperTable c

/-- JavaScript `s.toUpperCase()`. -/
def jsToUpper (s : String) : String := ⟨s.data.map jsUpperChar⟩

/-- If `pat` is a prefix of the list, the remainder after it. -/
def dropPat : List Char → List Char → Option (List Char)
  | [], rest => some rest
  | _ :: _, [] => none
  | p :: ps, c :: cs => if p = c then dropPat ps cs else none

/-- JavaScript `s.replace(pat, '')` with a string pattern on character lists:
only the FIRST occurrence of `pat`, wherever it stands, is removed. -/
def replaceFirstList (pat : List Char) : List Char → List Char
  | [] => []
  | c :: cs =>
    match dropPat pat (c :: cs) with
    | some rest => rest
    | none => c :: replaceFirstList pat cs

/-- JavaScript `s.replace(pat, '')` (string pattern: first occurrence only). -/
def replaceFirst (s pat : String) : String := ⟨replaceFirstList pat.data s.data⟩

/-- Whether `pat` occurs as a contiguous substring. -/
def containsPat (pat : List Char) : List Char → Bool
  | [] => (dropPat pat []).isSome
  | c :: cs => (dropPat pat (c :: cs)).isSome || containsPat pat cs

/-- Whether the string `pat` occurs as a contiguous substring of `s`. -/
def containsSub (s pat : String) : Bool := containsPat pat.data s.data

/- ### The lookup service of `mapper.js` -/

/-- The state of a `MonarchOmimMapper` instance: the two in-memory tables
`this.monarchMappings` (forward) and `this.omimMappings` (reverse). -/
structure MonarchOmimMapper where
  monarchMappings : Table FwdRec
  omimMappings : Table RevRec
deriving DecidableEq, Repr

/-- The loader `loadMappings`: the outcomes of fetching-and-parsing the two JSON files
are passed in as `Except` values; the `try`/`catch` of the source resets BOTH
tables to `{}` when anything in the block fails. -/
def loadMappings (monarchRes : Except String (Table FwdRec))
    (omimRes : Except String (Table RevRec)) : MonarchOmimMapper :=
  match monarchRes, omimRes with
  | Except.ok m, Except.ok o => ⟨m, o⟩
  | _, _ => ⟨[], []⟩

/-- Method `getMonarchToOmim(monarchId)`. A `none` argument models `null`/`undefined`;
`!monarchId` is true exactly for those and for the empty string. -/
def getMonarchToOmim (self : MonarchOmimMapper) (monarchId : Option String) :
    Option FwdRec :=
  match monarchId with
  | none => none
  | some s =>
    if s = "" then none
    else lookupTable self.monarchMappings (jsToUpper (jsTrim s))

/-- Method `getOmimToMonarch(omimId)`: strips the first occurrence of `"OMIM:"`,
trims, and looks the result up in the reverse table. -/
def getOmimToMonarch (self : MonarchOmimMapper) (omimId : Option String) :
    Option RevRec :=
  match omimId with
  | none => none
  | some s =>
    if s = "" then none
    else lookupTable self.omimMappings (jsTrim (replaceFirst s "OMIM:"))

/-- Method `getDiseaseName(monarchId)`: `data ? data.name : null`. -/
def getDiseaseName (self : MonarchOmimMapper) (monarchId : Option String) :
    Option String :=
  match getMonarchToOmim self monarchId with
  | some data => some data.name
  | none => none

/-- Method `getOmimName(omimId)`: `data ? data.name : null`. -/
def getOmimName (self : MonarchOmimMapper) (omimId : Option String) :
    Option String :=
  match getOmimToMonarch self omimId with
  | some data => some data.name
  | none => none

/- ### Method calls as state transformers

The methods of the class read `this` but never assign to it; the state-passing
embedding of a method call returns the result together with the instance state
after the call. -/

/-- A call `this.getMonarchToOmim(id)`: result and post-state. -/
def getMonarchToOmimCall (self : MonarchOmimMapper) (id : Option String) :
    Option FwdRec × MonarchOmimMapper :=
  (getMonarchToOmim self id, self)

/-- A call `this.getOmimToMonarch(id)`: result and post-state. -/
def getOmimToMonarchCall (self : MonarchOmimMapper) (id : Option String) :
    Option RevRec × MonarchOmimMapper :=
  (getOmimToMonarch self id, self)

/-- A call `this.getDiseaseName(id)`: result and post-state. -/
def getDiseaseNameCall (self : MonarchOmimMapper) (id : Option String) :
    Option String × MonarchOmimMapper :=
  (getDiseaseName self id, self)

/-- A call `this.getOmimName(id)`: result and post-state. -/
def getOmimNameCall (self : MonarchOmimMapper) (id : Option String) :
    Option String × MonarchOmimMapper :=
  (getOmimName self id, self)

/- ### Bracket access with the prototype chain

The two tables are plain objects (`{}` or `JSON.parse` output) inheriting
from `Object.prototype`, so `obj[key]` can yield a truthy INHERITED member
(`constructor`, `toString`, `__proto__`, ...) that `|| null` passes through.
The plain operations above model the accesses whose keys provably avoid the
prototype chain; the `Js`-suffixed variants below carry the full semantics. -/

/-- The own property names of `Object.prototype`: the keys at which a plain
JSON-parsed object with no such own key yields a truthy inherited value
instead of `undefined`. -/
def objectProtoProps : List String :=
  ["constructor", "hasOwnProperty", "isPrototypeOf", "propertyIsEnumerable",
   "toLocaleString", "toString", "valueOf", "__defineGetter__",
   "__defineSetter__", "__lookupGetter__", "__lookupSetter__", "__proto__"]

/-- The value of the JavaScript expression `obj[key] || null` on a plain
JSON-parsed object: an own entry of the document, a truthy member inherited
from `Object.prototype`, or `null`. -/
inductive BracketResult (α : Type) where
  | record : α → BracketResult α
  | protoMember : String → BracketResult α
  | nullv : BracketResult α
deriving DecidableEq, Repr

/-- JavaScript `obj[key] || null`: an own key shadows the prototype; an
absent own key falls through to `Object.prototype`, whose members are all
truthy and so survive the `|| null`; any other key gives `undefined`, hence
`null`. -/
def bracketOrNull {α : Type} (t : Table α) (k : String) : BracketResult α :=
  match lookupTable t k with
  | some v => BracketResult.record v
  | none =>
    if k ∈ objectProtoProps then BracketResult.protoMember k
    else BracketResult.nullv

/-- The `name` property read by `data.name` when `data` is the member of
`Object.prototype` at key `k`: the `constructor` function is `Object` (whose
`name` is `"Object"`), the `__proto__` accessor yields the prototype object
itself, which has no `name` property (`undefined`, modelled as `none`), and
every other member is a function named after its key. -/
def protoMemberName (k : String) : Option String :=
  if k = "constructor" then some "Object"
  else if k = "__proto__" then none
  else some k

/-- Method `getMonarchToOmim(monarchId)` under the full bracket-access
semantics, prototype chain included. -/
def getMonarchToOmimJs (self : MonarchOmimMapper) (monarchId : Option String) :
    BracketResult FwdRec :=
  match monarchId with
  | none => BracketResult.nullv
  | some s =>
    if s = "" then BracketResult.nullv
    else bracketOrNull self.monarchMappings (jsToUpper (jsTrim s))

/-- Method `getOmimToMonarch(omimId)` under the full bracket-access
semantics, prototype chain included: the lookup key is NOT uppercased, so it
can collide with an `Object.prototype` property name. -/
def getOmimToMonarchJs (self : MonarchOmimMapper) (omimId : Option String) :
    BracketResult RevRec :=
  match omimId with
  | none => BracketResult.nullv
  | some s =>
    if s = "" then BracketResult.nullv
    else bracketOrNull self.omimMappings (jsTrim (replaceFirst s "OMIM:"))

/-- Method `getDiseaseName(monarchId)` under the full bracket-access
semantics: `data ? data.name : null` where `data` may be an inherited
member. -/
def getDiseaseNameJs (self : MonarchOmimMapper) (monarchId : Option String) :
    Option String :=
  match getMonarchToOmimJs self monarchId with
  | BracketResult.record data => some data.name
  | BracketResult.protoMember k => protoMemberName k
  | BracketResult.nullv => none

/-- Method `getOmimName(omimId)` under the full bracket-access semantics:
`data ? data.name : null` where `data` may be an inherited member. -/
def getOmimNameJs (self : MonarchOmimMapper) (omimId : Option String) :
    Option String :=
  match getOmimToMonarchJs self omimId with
  | BracketResult.record data => some data.name
  | BracketResult.protoMember k => protoMemberName k
  | BracketResult.nullv => none

/- ### The Reverse-Index Builder -/

/-- Modelled from the spec: the Reverse-Index Builder of `updateMapping.py`
(the script is not part of the source tree). It consumes the forward table in
its natural enumeration order (the insertion order) in a single pass and
inserts, for each entry `(k → {e, n})`, the entry `(e → {k, n})` into the
accumulating reverse table; a later forward entry with the same external ID
overwrites the earlier reverse entry (last-write-wins). -/
def buildReverse (fwd : Table FwdRec) : Table RevRec :=
  fwd.foldl (fun acc p => insertKey acc p.2.externalId ⟨p.1, p.2.name⟩) []

/-- The translation of the LAST forward entry whose external ID is `e`, if
any: the value last-write-wins insertion leaves in the reverse table. -/
def lastMatch : Table FwdRec → String → Option RevRec
  | [], _ => none
  | p :: rest, e =>
    match lastMatch rest e with
    | some r => some r
    | none => if p.2.externalId = e then some ⟨p.1, p.2.name⟩ else none

/-- The reverse table is the exact inverse of the forward table: every
forward entry `(k → {e, n})` is found reversed as `(e → {k, n})`, and every
reverse entry arises that way from some forward entry. -/
def exactInverse (fwd : Table FwdRec) (rev : Table RevRec) : Prop :=
  (∀ p ∈ fwd, lookupTable rev p.2.externalId = some ⟨p.1, p.2.name⟩) ∧
  (∀ q ∈ rev, ∃ p ∈ fwd, p.2.externalId = q.1 ∧ q.2 = RevRec.mk p.1 p.2.name)

instance (fwd : Table FwdRec) (rev : Table RevRec) :
    Decidable (exactInverse fwd rev) := by
  unfold exactInverse; infer_instance

example : getOmimToMonarch ⟨[], [("154700", ⟨"MONDO:0007739", "Marfan"⟩)]⟩
    (some "OMIM:154700") = some ⟨"MONDO:0007739", "Marfan"⟩ := by decide

example : buildReverse [("A", ⟨"1", "X"⟩), ("B", ⟨"1", "Y"⟩)] =
    [("1", ⟨"B", "Y"⟩)] := by decide

/- ### Lemmas about the string primitives -/

theorem jsWhitespace_upperLookup (t : List (Char × Char)) (c : Char)
    (ht : ∀ p ∈ t, jsWhitespace p.1 = false ∧ jsWhitespace p.2 = false) :
    jsWhitespace (upperLookup t c) = jsWhitespace c := by
  induction t with
  | nil => rfl
  | cons hd rest ih =>
    obtain ⟨a, b⟩ := hd
    unfold upperLookup
    by_cases hac : a = c
    · rw [if_pos hac]
      have h1 := ht (a, b) (List.mem_cons_self _ _)
      rw [h1.2, ← hac, h1.1]
    · rw [if_neg hac]
      exact ih fun p hp => ht p (List.mem_cons_of_mem _ hp)

theorem jsWhitespace_upperChar (c : Char) :
    jsWhitespace (jsUpperChar c) = jsWhitespace c := by
  unfold jsUpperChar
  exact jsWhitespace_upperLookup upperTable c (by decide)

theorem dropWhile_map_upper (l : List Char) :
    (l.map jsUpperChar).dropWhile jsWhitespace =
      (l.dropWhile jsWhitespace).map jsUpperChar := by
  induction l with
  | nil => rfl
  | cons c cs ih =>
    simp only [List.map_cons, List.dropWhile_cons, jsWhitespace_upperChar]
    by_cases h : jsWhitespace c
    · simp [h, ih]
    · simp [h]

theorem trimList_map_upper (l : List Char) :
    trimList (l.map jsUpperChar) = (trimList l).map jsUpperChar := by
  unfold trimList
  rw [dropWhile_map_upper, ← List.map_reverse, dropWhile_map_upper,
    ← List.map_reverse]

theorem dropPat_self_append (pat rest : List Char) :
    dropPat pat (pat ++ rest) = some rest := by
  induction pat with
  | nil => rfl
  | cons p ps ih => simp [dropPat, ih]

theorem replaceFirstList_of_not_contains (pat l : List Char)
    (h : containsPat pat l = false) : replaceFirstList pat l = l := by
  induction l with
  | nil => rfl
  | cons c cs ih =>
    unfold containsPat at h
    rw [Bool.or_eq_false_iff] at h
    unfold replaceFirstList
    rcases hd : dropPat pat (c :: cs) with _ | rest
    · rw [ih h.2]
    · rw [hd] at h; simp at h

/- ### Lemmas about the table operations -/

theorem lookupTable_insertKey {α : Type} (t : Table α) (k x : String) (v : α) :
    lookupTable (insertKey t k v) x =
      if k = x then some v else lookupTable t x := by
  induction t with
  | nil => rfl
  | cons hd rest ih =>
    obtain ⟨k', v'⟩ := hd
    unfold insertKey
    by_cases hk : k' = k
    · subst hk
      by_cases hx : k' = x
      · subst hx; simp [lookupTable]
      · simp [lookupTable, hx]
    · simp only [if_neg hk]
      by_cases hx : k' = x
      · subst hx
        have hkx : ¬ k = k' := fun h => hk h.symm
        simp [lookupTable, hkx]
      · simp [lookupTable, hx, ih]

theorem mem_insertKey {α : Type} (t : Table α) (k x : String) (v w : α)
    (h : (x, w) ∈ insertKey t k v) : (x, w) ∈ t ∨ (x, w) = (k, v) := by
  induction t with
  | nil =>
    simp only [insertKey, List.mem_singleton] at h
    exact Or.inr h
  | cons hd rest ih =>
    obtain ⟨k', v'⟩ := hd
    unfold insertKey at h
    by_cases hk : k' = k
    · rw [if_pos hk] at h
      rcases List.mem_cons.mp h with h1 | h2
      · subst hk; exact Or.inr (h1.trans (by rw [Prod.mk.injEq]; exact ⟨rfl, rfl⟩))
      · exact Or.inl (List.mem_cons_of_mem _ h2)
    · rw [if_neg hk] at h
      rcases List.mem_cons.mp h with h1 | h2
      · exact Or.inl (List.mem_cons.mpr (Or.inl h1))
      · rcases ih h2 with h3 | h3
        · exact Or.inl (List.mem_cons_of_mem _ h3)
        · exact Or.inr h3

theorem keys_insertKey_nodup {α : Type} (t : Table α) (k : String) (v : α)
    (h : (t.map Prod.fst).Nodup) : ((insertKey t k v).map Prod.fst).Nodup := by
  induction t with
  | nil => simp [insertKey]
  | cons hd rest ih =>
    obtain ⟨k', v'⟩ := hd
    simp only [List.map_cons, List.nodup_cons] at h
    unfold insertKey
    by_cases hk : k' = k
    · rw [if_pos hk]
      simp only [List.map_cons, List.nodup_cons]
      exact h
    · rw [if_neg hk]
      simp only [List.map_cons, List.nodup_cons]
      refine ⟨?_, ih h.2⟩
      intro hmem
      rcases List.mem_map.mp hmem with ⟨⟨x, w⟩, hx, hfst⟩
      rcases mem_insertKey rest k x v w hx with h3 | h3
      · exact h.1 (List.mem_map.mpr ⟨(x, w), h3, hfst⟩)
      · rw [Prod.mk.injEq] at h3
        exact hk (hfst ▸ h3.1 ▸ rfl)

theorem lookupTable_foldl_insert (l : Table FwdRec) (acc : Table RevRec)
    (x : String) :
    lookupTable
        (l.foldl (fun a p => insertKey a p.2.externalId ⟨p.1, p.2.name⟩) acc)
        x =
      match lastMatch l x with
      | some r => some r
      | none => lookupTable acc x := by
  induction l generalizing acc with
  | nil => rfl
  | cons p rest ih =>
    rw [List.foldl_cons, ih]
    cases hlm : lastMatch rest x with
    | some r => unfold lastMatch; rw [hlm]
    | none =>
      unfold lastMatch
      rw [hlm, lookupTable_insertKey]
      by_cases he : p.2.externalId = x
      · rw [if_pos he, if_pos he]
      · rw [if_neg he, if_neg he]

theorem lookupTable_buildReverse (fwd : Table FwdRec) (x : String) :
    lookupTable (buildReverse fwd) x = lastMatch fwd x := by
  unfold buildReverse
  rw [lookupTable_foldl_insert]
  cases lastMatch fwd x <;> rfl

theorem lastMatch_eq_none (l : Table FwdRec) (e : String)
    (h : ∀ p ∈ l, p.2.externalId ≠ e) : lastMatch l e = none := by
  induction l with
  | nil => rfl
  | cons p rest ih =>
    unfold lastMatch
    rw [ih fun q hq => h q (List.mem_cons_of_mem _ hq)]
    rw [if_neg (h p (List.mem_cons_self _ _))]

theorem lastMatch_of_nodup (l : Table FwdRec) (p : String × FwdRec)
    (hnd : (l.map fun q => q.2.externalId).Nodup) (hp : p ∈ l) :
    lastMatch l p.2.externalId = some ⟨p.1, p.2.name⟩ := by
  induction l with
  | nil => cases hp
  | cons q rest ih =>
    simp only [List.map_cons, List.nodup_cons] at hnd
    rcases List.mem_cons.mp hp with h1 | h1
    · subst h1
      unfold lastMatch
      rw [lastMatch_eq_none rest _ ?_, if_pos rfl]
      intro r hr heq
      exact hnd.1 (heq ▸ List.mem_map.mpr ⟨r, hr, rfl⟩)
    · unfold lastMatch
      rw [ih hnd.2 h1]

theorem mem_foldl_insert (l : Table FwdRec) (acc : Table RevRec)
    (q : String × RevRec)
    (h : q ∈ l.foldl (fun a p => insertKey a p.2.externalId ⟨p.1, p.2.name⟩)
      acc) :
    q ∈ acc ∨ ∃ p ∈ l, q = (p.2.externalId, RevRec.mk p.1 p.2.name) := by
  induction l generalizing acc with
  | nil => exact Or.inl h
  | cons p rest ih =>
    rw [List.foldl_cons] at h
    rcases ih _ h with h1 | h1
    · obtain ⟨x, w⟩ := q
      rcases mem_insertKey acc p.2.externalId x ⟨p.1, p.2.name⟩ w h1 with
        h2 | h2
      · exact Or.inl h2
      · exact Or.inr ⟨p, List.mem_cons_self _ _, h2⟩
    · obtain ⟨p', hp', hq⟩ := h1
      exact Or.inr ⟨p', List.mem_cons_of_mem _ hp', hq⟩

theorem keys_foldl_insert_nodup (l : Table FwdRec) (acc : Table RevRec)
    (h : (acc.map Prod.fst).Nodup) :
    (((l.foldl (fun a p => insertKey a p.2.externalId ⟨p.1, p.2.name⟩)
      acc)).map Prod.fst).Nodup := by
  induction l generalizing acc with
  | nil => exact h
  | cons p rest ih =>
    rw [List.foldl_cons]
    exact ih _ (keys_insertKey_nodup _ _ _ h)

theorem lookupTable_mem {α : Type} (t : Table α) (k : String) (v : α)
    (h : lookupTable t k = some v) : (k, v) ∈ t := by
  induction t with
  | nil => exact absurd h (by simp [lookupTable])
  | cons hd rest ih =>
    obtain ⟨k', v'⟩ := hd
    unfold lookupTable at h
    by_cases hk : k' = k
    · rw [if_pos hk] at h
      subst hk
      exact List.mem_cons.mpr (Or.inl (by rw [Option.some.injEq] at h; rw [h]))
    · rw [if_neg hk] at h
      exact List.mem_cons_of_mem _ (ih h)

/- ### Helper lemmas about the lookup operations -/

theorem dropWhile_of_all_whitespace (l : List Char)
    (h : ∀ c ∈ l, jsWhitespace c = true) :
    l.dropWhile jsWhitespace = [] := by
  induction l with
  | nil => rfl
  | cons c cs ih =>
    rw [List.dropWhile_cons]
    simp only [h c (List.mem_cons_self _ _), if_true]
    exact ih fun x hx => h x (List.mem_cons_of_mem _ hx)

theorem trimList_of_all_whitespace (l : List Char)
    (h : ∀ c ∈ l, jsWhitespace c = true) : trimList l = [] := by
  unfold trimList
  rw [dropWhile_of_all_whitespace l h]
  rfl

theorem containsPat_of_all_whitespace (p : Char) (ps l : List Char)
    (hp : jsWhitespace p = false) (h : ∀ c ∈ l, jsWhitespace c = true) :
    containsPat (p :: ps) l = false := by
  induction l with
  | nil => rfl
  | cons c cs ih =>
    unfold containsPat
    have hc := h c (List.mem_cons_self _ _)
    have hpc : ¬ (p = c) := fun he => by rw [he, hc] at hp; cases hp
    unfold dropPat
    rw [if_neg hpc]
    simp only [Option.isSome_none, Bool.false_or]
    exact ih fun x hx => h x (List.mem_cons_of_mem _ hx)

theorem upperLookup_cases (t : List (Char × Char)) (c : Char) :
    (∃ p ∈ t, upperLookup t c = p.2) ∨
    (upperLookup t c = c ∧ ∀ p ∈ t, p.1 ≠ c) := by
  induction t with
  | nil => exact Or.inr ⟨rfl, by intro p hp; cases hp⟩
  | cons hd rest ih =>
    obtain ⟨a, b⟩ := hd
    unfold upperLookup
    by_cases hac : a = c
    · rw [if_pos hac]
      exact Or.inl ⟨(a, b), List.mem_cons_self _ _, rfl⟩
    · rw [if_neg hac]
      rcases ih with ⟨p, hp, he⟩ | ⟨he, hall⟩
      · exact Or.inl ⟨p, List.mem_cons_of_mem _ hp, he⟩
      · refine Or.inr ⟨he, ?_⟩
        intro p hp
        rcases List.mem_cons.mp hp with h1 | h1
        · rw [h1]; exact hac
        · exact hall p h1

theorem jsUpperChar_not_lowercase (c : Char) :
    jsUpperChar c ∉ upperTable.map Prod.fst := by
  intro hmem
  have hmem2 : upperLookup upperTable c ∈ upperTable.map Prod.fst := hmem
  rcases upperLookup_cases upperTable c with ⟨p, hp, he⟩ | ⟨he, hall⟩
  · have hv : ∀ q ∈ upperTable, q.2 ∉ upperTable.map Prod.fst := by decide
    rw [he] at hmem2
    exact hv p hp hmem2
  · rw [he] at hmem2
    rcases List.mem_map.mp hmem2 with ⟨q, hq, hqe⟩
    exact hall q hq hqe

theorem jsToUpper_not_proto (s : String) :
    jsToUpper s ∉ objectProtoProps := by
  intro hmem
  have hlow : ∀ p ∈ objectProtoProps,
      ∃ c ∈ p.data, c ∈ upperTable.map Prod.fst := by decide
  obtain ⟨c, hc, hck⟩ := hlow _ hmem
  have hc2 : c ∈ s.data.map jsUpperChar := hc
  rcases List.mem_map.mp hc2 with ⟨c0, _, hc0⟩
  rw [← hc0] at hck
  exact jsUpperChar_not_lowercase c0 hck

theorem getMonarchToOmimJs_nullv (m : MonarchOmimMapper) (s : String)
    (h : lookupTable m.monarchMappings (jsToUpper (jsTrim s)) = none) :
    getMonarchToOmimJs m (some s) = BracketResult.nullv := by
  show (if s = "" then BracketResult.nullv
    else bracketOrNull m.monarchMappings (jsToUpper (jsTrim s))) =
    BracketResult.nullv
  by_cases hs : s = ""
  · rw [if_pos hs]
  · rw [if_neg hs]
    simp only [bracketOrNull, h]
    rw [if_neg (jsToUpper_not_proto (jsTrim s))]

theorem getOmimToMonarchJs_nullv (m : MonarchOmimMapper) (s : String)
    (h : lookupTable m.omimMappings (jsTrim (replaceFirst s "OMIM:")) = none)
    (hp : jsTrim (replaceFirst s "OMIM:") ∉ objectProtoProps) :
    getOmimToMonarchJs m (some s) = BracketResult.nullv := by
  show (if s = "" then BracketResult.nullv
    else bracketOrNull m.omimMappings (jsTrim (replaceFirst s "OMIM:"))) =
    BracketResult.nullv
  by_cases hs : s = ""
  · rw [if_pos hs]
  · rw [if_neg hs]
    simp only [bracketOrNull, h]
    rw [if_neg hp]

theorem getDiseaseNameJs_of_nullv (m : MonarchOmimMapper) (id : Option String)
    (h : getMonarchToOmimJs m id = BracketResult.nullv) :
    getDiseaseNameJs m id = none := by
  unfold getDiseaseNameJs
  rw [h]

theorem getOmimNameJs_of_nullv (m : MonarchOmimMapper) (id : Option String)
    (h : getOmimToMonarchJs m id = BracketResult.nullv) :
    getOmimNameJs m id = none := by
  unfold getOmimNameJs
  rw [h]

/- ### The claims -/

/-- C2 counterexample: `"constructor"` is not a key of the loaded reverse
table, yet `getOmimToMonarch("constructor")` returns the truthy inherited
`Object.prototype.constructor` (which `|| null` passes through) and
`getOmimName("constructor")` returns `"Object"` — not the `null` sentinel. -/
theorem miss_handling_refuted :
    lookupTable [("154700",
      (⟨"MONDO:0007739", "Marfan syndrome"⟩ : RevRec))] "constructor" =
      none ∧
    getOmimToMonarchJs
      ⟨[], [("154700", ⟨"MONDO:0007739", "Marfan syndrome"⟩)]⟩
      (some "constructor") = BracketResult.protoMember "constructor" ∧
    getOmimNameJs
      ⟨[], [("154700", ⟨"MONDO:0007739", "Marfan syndrome"⟩)]⟩
      (some "constructor") = some "Object" := by decide

/-- C2 amended: for `null`/absent input, the empty string, a whitespace-only
string, or any identifier whose normalized key is absent from the loaded
table, each of the four lookup operations returns the no-match sentinel
`null` — EXCEPT that in the reverse (un-uppercased) direction an identifier
normalizing to an `Object.prototype` property name leaks the truthy
inherited member through `|| null`; the forward direction is shielded
because uppercased keys never equal such a name. All four operations are
total, so no input raises an exception. -/
theorem miss_handling (m : MonarchOmimMapper) (w s1 s2 : String)
    (hw : ∀ c ∈ w.data, jsWhitespace c = true)
    (hm0 : lookupTable m.monarchMappings "" = none)
    (ho0 : lookupTable m.omimMappings "" = none)
    (h1 : lookupTable m.monarchMappings (jsToUpper (jsTrim s1)) = none)
    (h2 : lookupTable m.omimMappings (jsTrim (replaceFirst s2 "OMIM:")) =
      none)
    (h2p : jsTrim (replaceFirst s2 "OMIM:") ∉ objectProtoProps) :
    (getMonarchToOmimJs m none = BracketResult.nullv ∧
     getOmimToMonarchJs m none = BracketResult.nullv ∧
     getDiseaseNameJs m none = none ∧ getOmimNameJs m none = none) ∧
    (getMonarchToOmimJs m (some "") = BracketResult.nullv ∧
     getOmimToMonarchJs m (some "") = BracketResult.nullv ∧
     getDiseaseNameJs m (some "") = none ∧
     getOmimNameJs m (some "") = none) ∧
    (getMonarchToOmimJs m (some w) = BracketResult.nullv ∧
     getOmimToMonarchJs m (some w) = BracketResult.nullv ∧
     getDiseaseNameJs m (some w) = none ∧
     getOmimNameJs m (some w) = none) ∧
    (getMonarchToOmimJs m (some s1) = BracketResult.nullv ∧
     getDiseaseNameJs m (some s1) = none ∧
     getOmimToMonarchJs m (some s2) = BracketResult.nullv ∧
     getOmimNameJs m (some s2) = none) := by
  have htrim : jsTrim w = "" := by
    show String.mk (trimList w.data) = ""
    rw [trimList_of_all_whitespace w.data hw]
  have hrep : replaceFirst w "OMIM:" = w := by
    show String.mk (replaceFirstList "OMIM:".data w.data) = w
    rw [replaceFirstList_of_not_contains _ _
      (containsPat_of_all_whitespace 'O' ['M', 'I', 'M', ':'] w.data
        (by decide) hw)]
  have hwMon : getMonarchToOmimJs m (some w) = BracketResult.nullv :=
    getMonarchToOmimJs_nullv m w (by rw [htrim]; exact hm0)
  have hwOmim : getOmimToMonarchJs m (some w) = BracketResult.nullv :=
    getOmimToMonarchJs_nullv m w (by rw [hrep, htrim]; exact ho0)
      (by rw [hrep, htrim]; decide)
  have hs1 : getMonarchToOmimJs m (some s1) = BracketResult.nullv :=
    getMonarchToOmimJs_nullv m s1 h1
  have hs2 : getOmimToMonarchJs m (some s2) = BracketResult.nullv :=
    getOmimToMonarchJs_nullv m s2 h2 h2p
  refine ⟨⟨rfl, rfl, rfl, rfl⟩, ⟨rfl, rfl, rfl, rfl⟩,
    ⟨hwMon, hwOmim, getDiseaseNameJs_of_nullv _ _ hwMon,
      getOmimNameJs_of_nullv _ _ hwOmim⟩,
    hs1, getDiseaseNameJs_of_nullv _ _ hs1, hs2,
    getOmimNameJs_of_nullv _ _ hs2⟩

/-- C2 witness: against a one-entry pair of tables, a `null` argument, the
empty string, a whitespace-only string, and absent identifiers in both
directions all report a plain miss. -/
theorem miss_handling_witness :
    getMonarchToOmimJs
      ⟨[("MONDO:0007739", ⟨"154700", "Marfan syndrome"⟩)],
       [("154700", ⟨"MONDO:0007739", "Marfan syndrome"⟩)]⟩ none =
      BracketResult.nullv ∧
    getMonarchToOmimJs
      ⟨[("MONDO:0007739", ⟨"154700", "Marfan syndrome"⟩)],
       [("154700", ⟨"MONDO:0007739", "Marfan syndrome"⟩)]⟩
      (some "   ") = BracketResult.nullv ∧
    getMonarchToOmimJs
      ⟨[("MONDO:0007739", ⟨"154700", "Marfan syndrome"⟩)],
       [("154700", ⟨"MONDO:0007739", "Marfan syndrome"⟩)]⟩
      (some "MONDO:9999999") = BracketResult.nullv ∧
    getOmimToMonarchJs
      ⟨[("MONDO:0007739", ⟨"154700", "Marfan syndrome"⟩)],
       [("154700", ⟨"MONDO:0007739", "Marfan syndrome"⟩)]⟩
      (some "OMIM:9999999") = BracketResult.nullv := by
  have h := miss_handling
    ⟨[("MONDO:0007739", ⟨"154700", "Marfan syndrome"⟩)],
     [("154700", ⟨"MONDO:0007739", "Marfan syndrome"⟩)]⟩
    "   " "MONDO:9999999" "OMIM:9999999"
    (by decide) (by decide) (by decide) (by decide) (by decide) (by decide)
  exact ⟨h.1.1, h.2.2.1.1, h.2.2.2.1, h.2.2.2.2.2.1⟩

/-- C7: for every input `id`, `getDiseaseName id` equals the `name` field of
the record returned by `getMonarchToOmim id`, or `null` when that lookup
misses; likewise `getOmimName id` equals the `name` field of
`getOmimToMonarch id` or `null` on a miss. -/
theorem name_accessors_compose (m : MonarchOmimMapper) (id : Option String) :
    getDiseaseName m id = Option.map FwdRec.name (getMonarchToOmim m id) ∧
    getOmimName m id = Option.map RevRec.name (getOmimToMonarch m id) := by
  refine ⟨?_, ?_⟩
  · unfold getDiseaseName
    cases getMonarchToOmim m id <;> rfl
  · unfold getOmimName
    cases getOmimToMonarch m id <;> rfl

/-- C8: every lookup call leaves both in-memory tables unchanged (the
post-state of the state-passing embedding is the pre-state), and a second call
of the same operation with the same argument, made in the state the first call
left behind, returns the same result as the first. -/
theorem lookups_pure (m : MonarchOmimMapper) (id : Option String) :
    (getMonarchToOmimCall m id).2 = m ∧
    (getOmimToMonarchCall m id).2 = m ∧
    (getDiseaseNameCall m id).2 = m ∧
    (getOmimNameCall m id).2 = m ∧
    (getMonarchToOmimCall (getMonarchToOmimCall m id).2 id).1 =
      (getMonarchToOmimCall m id).1 ∧
    (getOmimToMonarchCall (getOmimToMonarchCall m id).2 id).1 =
      (getOmimToMonarchCall m id).1 ∧
    (getDiseaseNameCall (getDiseaseNameCall m id).2 id).1 =
      (getDiseaseNameCall m id).1 ∧
    (getOmimNameCall (getOmimNameCall m id).2 id).1 =
      (getOmimNameCall m id).1 :=
  ⟨rfl, rfl, rfl, rfl, rfl, rfl, rfl, rfl⟩

/-- C10: `getOmimToMonarch` removes only the FIRST occurrence of the literal
substring `"OMIM:"`, wherever it appears in the input: against any loaded
tables, `"xOMIM:154700"` is looked up under the key `"x154700"`, and
`"OMIM:OMIM:154700"` under `"OMIM:154700"`. -/
theorem replace_removes_first_occurrence (fwdT : Table FwdRec)
    (revT : Table RevRec) :
    getOmimToMonarch ⟨fwdT, revT⟩ (some "xOMIM:154700") =
      lookupTable revT "x154700" ∧
    getOmimToMonarch ⟨fwdT, revT⟩ (some "OMIM:OMIM:154700") =
      lookupTable revT "OMIM:154700" :=
  ⟨rfl, rfl⟩

/-- C3 counterexample: after a failing forward-table fetch the service
degrades to two empty mappings, but not EVERY subsequent lookup reports a
miss: the reverse lookup of `"constructor"` surfaces the truthy inherited
`Object.prototype.constructor` instead of the no-match sentinel. -/
theorem load_failure_fallback_refuted :
    loadMappings (Except.error "fetch failed")
      (Except.ok [("154700", ⟨"MONDO:0007739", "Marfan syndrome"⟩)]) =
      ⟨[], []⟩ ∧
    getOmimToMonarchJs (loadMappings (Except.error "fetch failed")
      (Except.ok [("154700", ⟨"MONDO:0007739", "Marfan syndrome"⟩)]))
      (some "constructor") =
      BracketResult.protoMember "constructor" := by decide

/-- C3 amended: if fetching or parsing either persisted table fails during
initialization, the service falls back to two empty in-memory mappings and
no failure reaches the caller; afterwards every forward-direction lookup
returns the no-match sentinel `null`, and so does every reverse-direction
lookup except at identifiers normalizing to an `Object.prototype` property
name, where the truthy inherited member leaks through `|| null` (still not
an I/O error). -/
theorem load_failure_fallback (monarchRes : Except String (Table FwdRec))
    (omimRes : Except String (Table RevRec))
    (h : (∃ e, monarchRes = Except.error e) ∨
      (∃ e, omimRes = Except.error e)) :
    loadMappings monarchRes omimRes = ⟨[], []⟩ ∧
    (∀ id, getMonarchToOmimJs (loadMappings monarchRes omimRes) id =
        BracketResult.nullv ∧
      getDiseaseNameJs (loadMappings monarchRes omimRes) id = none) ∧
    getOmimToMonarchJs (loadMappings monarchRes omimRes) none =
      BracketResult.nullv ∧
    getOmimToMonarchJs (loadMappings monarchRes omimRes) (some "") =
      BracketResult.nullv ∧
    (∀ s, jsTrim (replaceFirst s "OMIM:") ∉ objectProtoProps →
      getOmimToMonarchJs (loadMappings monarchRes omimRes) (some s) =
        BracketResult.nullv ∧
      getOmimNameJs (loadMappings monarchRes omimRes) (some s) = none) := by
  have hempty : loadMappings monarchRes omimRes = ⟨[], []⟩ := by
    rcases h with ⟨e, he⟩ | ⟨e, he⟩
    · subst he; cases omimRes <;> rfl
    · subst he; cases monarchRes <;> rfl
  rw [hempty]
  refine ⟨rfl, ?_, rfl, rfl, ?_⟩
  · intro id
    cases id with
    | none => exact ⟨rfl, rfl⟩
    | some s =>
      have hm : getMonarchToOmimJs ⟨[], []⟩ (some s) =
          BracketResult.nullv := getMonarchToOmimJs_nullv ⟨[], []⟩ s rfl
      exact ⟨hm, getDiseaseNameJs_of_nullv _ _ hm⟩
  · intro s hp
    have ho : getOmimToMonarchJs ⟨[], []⟩ (some s) = BracketResult.nullv :=
      getOmimToMonarchJs_nullv ⟨[], []⟩ s rfl hp
    exact ⟨ho, getOmimNameJs_of_nullv _ _ ho⟩

/-- C3 witness: a failing forward-table fetch yields the empty service state,
and a lookup of a well-formed identifier reports a miss instead of an error. -/
theorem load_failure_fallback_witness :
    loadMappings (Except.error "fetch failed")
      (Except.ok [("154700", ⟨"MONDO:0007739", "Marfan syndrome"⟩)]) =
      ⟨[], []⟩ ∧
    getOmimToMonarchJs (loadMappings (Except.error "fetch failed")
      (Except.ok [("154700", ⟨"MONDO:0007739", "Marfan syndrome"⟩)]))
      (some "OMIM:154700") = BracketResult.nullv := by
  have h := load_failure_fallback (Except.error "fetch failed")
    (Except.ok [("154700", ⟨"MONDO:0007739", "Marfan syndrome"⟩)])
    (Or.inl ⟨"fetch failed", rfl⟩)
  exact ⟨h.1, (h.2.2.2.2 "OMIM:154700" (by decide)).1⟩

/-- C9 counterexample: the claim says a failure of ONE table load degrades
only that direction. In the code, a failing forward-table load also empties
the reverse table: the reverse lookup of a key present in the successfully
parsed reverse document returns `null`. -/
theorem per_direction_degradation_refuted :
    lookupTable [("154700",
      (⟨"MONDO:0007739", "Marfan syndrome"⟩ : RevRec))] "154700" =
      some ⟨"MONDO:0007739", "Marfan syndrome"⟩ ∧
    getOmimToMonarch (loadMappings (Except.error "network error")
      (Except.ok [("154700", ⟨"MONDO:0007739", "Marfan syndrome"⟩)]))
      (some "154700") = none := by
  exact ⟨rfl, rfl⟩

/-- C9 amended: when exactly one of the two persisted tables fails to fetch
or parse at startup, BOTH in-memory tables are degraded to empty mappings —
the successfully loaded document is discarded — and subsequent lookups
report the no-match sentinel: unconditionally in the forward direction, and
in the reverse direction for every identifier not normalizing to an
`Object.prototype` property name. -/
theorem one_sided_failure_empties_both (e : String) (fwdT : Table FwdRec)
    (revT : Table RevRec) :
    loadMappings (Except.error e) (Except.ok revT) = ⟨[], []⟩ ∧
    loadMappings (Except.ok fwdT) (Except.error e) = ⟨[], []⟩ ∧
    (∀ id, getMonarchToOmimJs (loadMappings (Except.error e)
        (Except.ok revT)) id = BracketResult.nullv ∧
      getMonarchToOmimJs (loadMappings (Except.ok fwdT)
        (Except.error e)) id = BracketResult.nullv) ∧
    getOmimToMonarchJs (loadMappings (Except.error e) (Except.ok revT))
      none = BracketResult.nullv ∧
    (∀ s, jsTrim (replaceFirst s "OMIM:") ∉ objectProtoProps →
      getOmimToMonarchJs (loadMappings (Except.error e)
        (Except.ok revT)) (some s) = BracketResult.nullv ∧
      getOmimToMonarchJs (loadMappings (Except.ok fwdT)
        (Except.error e)) (some s) = BracketResult.nullv) := by
  refine ⟨rfl, rfl, ?_, rfl, ?_⟩
  · intro id
    cases id with
    | none => exact ⟨rfl, rfl⟩
    | some s =>
      exact ⟨getMonarchToOmimJs_nullv _ s rfl,
        getMonarchToOmimJs_nullv _ s rfl⟩
  · intro s hp
    exact ⟨getOmimToMonarchJs_nullv _ s rfl hp,
      getOmimToMonarchJs_nullv _ s rfl hp⟩

/-- C9 amended-claim witness: with a failing forward fetch and a
successfully parsed reverse document, both directions report plain misses
on ordinary identifiers. -/
theorem one_sided_failure_empties_both_witness :
    getMonarchToOmimJs (loadMappings (Except.error "network error")
      (Except.ok [("154700", ⟨"MONDO:0007739", "Marfan syndrome"⟩)]))
      (some "MONDO:0007739") = BracketResult.nullv ∧
    getOmimToMonarchJs (loadMappings (Except.error "network error")
      (Except.ok [("154700", ⟨"MONDO:0007739", "Marfan syndrome"⟩)]))
      (some "154700") = BracketResult.nullv :=
  ⟨((one_sided_failure_empties_both "network error" []
      [("154700", ⟨"MONDO:0007739", "Marfan syndrome"⟩)]).2.2.1
      (some "MONDO:0007739")).1,
   ((one_sided_failure_empties_both "network error" []
      [("154700", ⟨"MONDO:0007739", "Marfan syndrome"⟩)]).2.2.2.2
      "154700" (by decide)).1⟩

/-- C4: `getMonarchToOmim` is case-insensitive: two inputs that are case
variants of one another (equal after character-wise uppercasing) give the
same result. -/
theorem monarch_lookup_case_insensitive (m : MonarchOmimMapper) (s t : String)
    (h : jsToUpper s = jsToUpper t) :
    getMonarchToOmim m (some s) = getMonarchToOmim m (some t) := by
  obtain ⟨ls⟩ := s
  obtain ⟨lt⟩ := t
  have hd : ls.map jsUpperChar = lt.map jsUpperChar := congrArg String.data h
  by_cases hls : ls = []
  · have hlt : lt = [] := by
      subst hls
      exact (List.map_eq_nil_iff.mp hd.symm)
    subst hls; subst hlt; rfl
  · have hlt : lt ≠ [] := by
      intro hlt
      subst hlt
      exact hls (List.map_eq_nil_iff.mp hd)
    have hse : (String.mk ls) ≠ "" := fun he => hls (congrArg String.data he)
    have hte : (String.mk lt) ≠ "" := fun he => hlt (congrArg String.data he)
    show (if String.mk ls = "" then none
      else lookupTable m.monarchMappings (jsToUpper (jsTrim ⟨ls⟩))) =
      (if String.mk lt = "" then none
      else lookupTable m.monarchMappings (jsToUpper (jsTrim ⟨lt⟩)))
    rw [if_neg hse, if_neg hte]
    have hkey : (trimList ls).map jsUpperChar = (trimList lt).map jsUpperChar
      := by rw [← trimList_map_upper, ← trimList_map_upper, hd]
    show lookupTable m.monarchMappings ⟨(trimList ls).map jsUpperChar⟩ =
      lookupTable m.monarchMappings ⟨(trimList lt).map jsUpperChar⟩
    rw [hkey]

/-- C4 witness: `"mondo:0007739"` and `"MONDO:0007739"` give the same result,
and that result is the mapped record. -/
theorem monarch_lookup_case_insensitive_witness :
    getMonarchToOmim
      ⟨[("MONDO:0007739", ⟨"154700", "Marfan syndrome"⟩)], []⟩
      (some "mondo:0007739") =
    getMonarchToOmim
      ⟨[("MONDO:0007739", ⟨"154700", "Marfan syndrome"⟩)], []⟩
      (some "MONDO:0007739") ∧
    getMonarchToOmim
      ⟨[("MONDO:0007739", ⟨"154700", "Marfan syndrome"⟩)], []⟩
      (some "MONDO:0007739") = some ⟨"154700", "Marfan syndrome"⟩ :=
  ⟨monarch_lookup_case_insensitive _ "mondo:0007739" "MONDO:0007739"
    (by decide), by decide⟩

theorem replaceFirstList_self_append (p : Char) (ps rest : List Char) :
    replaceFirstList (p :: ps) ((p :: ps) ++ rest) = rest := by
  have h : dropPat (p :: ps) (p :: (ps ++ rest)) = some rest := by
    rw [← List.cons_append]
    exact dropPat_self_append _ _
  rw [List.cons_append]
  simp [replaceFirstList, h]

/-- C5 counterexample: the claimed equality `getOmimToMonarch("OMIM:" + d) =
getOmimToMonarch(d)` fails for `d = "OMIM:154700"` against a table holding
the key `"154700"`: only the first occurrence of `"OMIM:"` is removed, so the
left side looks up `"OMIM:154700"` (a miss) while the right side looks up
`"154700"` (a hit). -/
theorem omim_prefix_strip_refuted :
    getOmimToMonarch
      ⟨[], [("154700", ⟨"MONDO:0007739", "Marfan syndrome"⟩)]⟩
      (some ("OMIM:" ++ "OMIM:154700")) ≠
    getOmimToMonarch
      ⟨[], [("154700", ⟨"MONDO:0007739", "Marfan syndrome"⟩)]⟩
      (some "OMIM:154700") := by decide

/-- C5 amended: for every NONEMPTY external identifier `d` that does not
itself contain the literal substring `"OMIM:"`, `getOmimToMonarch` returns
the same result on `"OMIM:" ++ d` and on `d`; the token comparison is
case-sensitive — a lowercase `"omim:154700"` is not stripped and is looked up
verbatim. -/
theorem omim_prefix_strip (m : MonarchOmimMapper) (d : String)
    (hne : d ≠ "") (hnc : containsSub d "OMIM:" = false) :
    getOmimToMonarch m (some ("OMIM:" ++ d)) =
      getOmimToMonarch m (some d) ∧
    ∀ revT : Table RevRec, getOmimToMonarch ⟨[], revT⟩ (some "omim:154700") =
      lookupTable revT "omim:154700" := by
  refine ⟨?_, fun revT => rfl⟩
  obtain ⟨ld⟩ := d
  have hne2 : ("OMIM:" ++ String.mk ld) ≠ "" := by
    intro he
    have : ('O' :: ('M' :: 'I' :: 'M' :: ':' :: ld)) = ([] : List Char) :=
      congrArg String.data he
    cases this
  have hk1 : replaceFirst ("OMIM:" ++ String.mk ld) "OMIM:" = String.mk ld
    := by
    exact congrArg String.mk
      (replaceFirstList_self_append 'O' ['M', 'I', 'M', ':'] ld)
  have hk2 : replaceFirst (String.mk ld) "OMIM:" = String.mk ld := by
    exact congrArg String.mk (replaceFirstList_of_not_contains _ _ hnc)
  show (if ("OMIM:" ++ String.mk ld) = "" then none
    else lookupTable m.omimMappings
      (jsTrim (replaceFirst ("OMIM:" ++ String.mk ld) "OMIM:"))) =
    (if String.mk ld = "" then none
    else lookupTable m.omimMappings
      (jsTrim (replaceFirst (String.mk ld) "OMIM:")))
  rw [if_neg hne2, if_neg hne, hk1, hk2]

/-- C5 witness: `"OMIM:" ++ "154700"` and `"154700"` agree, and both find the
mapped record. -/
theorem omim_prefix_strip_witness :
    getOmimToMonarch
      ⟨[], [("154700", ⟨"MONDO:0007739", "Marfan syndrome"⟩)]⟩
      (some ("OMIM:" ++ "154700")) =
    getOmimToMonarch
      ⟨[], [("154700", ⟨"MONDO:0007739", "Marfan syndrome"⟩)]⟩
      (some "154700") ∧
    getOmimToMonarch
      ⟨[], [("154700", ⟨"MONDO:0007739", "Marfan syndrome"⟩)]⟩
      (some "154700") = some ⟨"MONDO:0007739", "Marfan syndrome"⟩ :=
  ⟨(omim_prefix_strip _ "154700" (by decide) (by decide)).1, by decide⟩

/-- C1 counterexample: against a forward table and its EXACT inverse (and no
external-ID collisions), the round trip can still miss: when the stored
external ID is itself of the form `"OMIM:1"`, `getOmimToMonarch` normalizes
the argument to `"1"` and does not find the reverse key `"OMIM:1"`. -/
theorem round_trip_refuted :
    exactInverse [("MONDO:0000001", ⟨"OMIM:1", "N"⟩)]
      [("OMIM:1", ⟨"MONDO:0000001", "N"⟩)] ∧
    (([("MONDO:0000001", (⟨"OMIM:1", "N"⟩ : FwdRec))].map
      fun p => p.2.externalId).Nodup) ∧
    lookupTable [("MONDO:0000001", (⟨"OMIM:1", "N"⟩ : FwdRec))]
      "MONDO:0000001" = some ⟨"OMIM:1", "N"⟩ ∧
    getOmimToMonarch
      ⟨[("MONDO:0000001", ⟨"OMIM:1", "N"⟩)],
       [("OMIM:1", ⟨"MONDO:0000001", "N"⟩)]⟩
      (some "OMIM:1") ≠ some ⟨"MONDO:0000001", "N"⟩ := by decide

/-- C1 amended: the round trip holds for every forward entry whose external
ID is a fixed point of the argument normalization — nonempty, free of the
substring `"OMIM:"`, and without leading or trailing whitespace: if the
reverse table is the exact inverse of the forward table, forward keys have no
external-ID collisions, and `(k → {e, n})` is a forward entry, then
`getOmimToMonarch e` returns `{knowledgeBaseId := k, name := n}`. -/
theorem round_trip (fwd : Table FwdRec) (rev : Table RevRec) (k e n : String)
    (hinv : exactInverse fwd rev)
    (hnd : (fwd.map fun p => p.2.externalId).Nodup)
    (hk : lookupTable fwd k = some ⟨e, n⟩)
    (he0 : e ≠ "") (he1 : containsSub e "OMIM:" = false)
    (he2 : jsTrim e = e) :
    getOmimToMonarch ⟨fwd, rev⟩ (some e) = some ⟨k, n⟩ := by
  have hmem := lookupTable_mem fwd k ⟨e, n⟩ hk
  have hrev := hinv.1 (k, ⟨e, n⟩) hmem
  have hrep : replaceFirst e "OMIM:" = e := by
    obtain ⟨le⟩ := e
    exact congrArg String.mk (replaceFirstList_of_not_contains _ _ he1)
  show (if e = "" then none
    else lookupTable rev (jsTrim (replaceFirst e "OMIM:"))) = some ⟨k, n⟩
  rw [if_neg he0, hrep, he2]
  exact hrev

/-- C1 witness: with a normalized one-entry forward table and its exact
inverse, the round trip recovers the knowledge-base ID and name. -/
theorem round_trip_witness :
    getOmimToMonarch
      ⟨[("MONDO:0007739", ⟨"154700", "Marfan syndrome"⟩)],
       [("154700", ⟨"MONDO:0007739", "Marfan syndrome"⟩)]⟩
      (some "154700") = some ⟨"MONDO:0007739", "Marfan syndrome"⟩ :=
  round_trip [("MONDO:0007739", ⟨"154700", "Marfan syndrome"⟩)]
    [("154700", ⟨"MONDO:0007739", "Marfan syndrome"⟩)]
    "MONDO:0007739" "154700" "Marfan syndrome"
    (by decide) (by decide) (by decide) (by decide) (by decide) (by decide)

/-- C6: the reverse table built from a forward table has pairwise-distinct
keys; every reverse entry arises from a forward entry; when the forward
external IDs are collision-free, every forward entry `(k → {e, n})` is found
reversed as `(e → {k, n})`; and in general the reverse entry for any external
ID equals the translation of the LAST forward entry carrying that ID
(last-write-wins in the forward table's insertion order). -/
theorem reverse_index_invariant (fwd : Table FwdRec) :
    ((buildReverse fwd).map Prod.fst).Nodup ∧
    (∀ q ∈ buildReverse fwd, ∃ p ∈ fwd,
      q = (p.2.externalId, RevRec.mk p.1 p.2.name)) ∧
    ((fwd.map fun p => p.2.externalId).Nodup →
      ∀ p ∈ fwd, lookupTable (buildReverse fwd) p.2.externalId =
        some ⟨p.1, p.2.name⟩) ∧
    (∀ e, lookupTable (buildReverse fwd) e = lastMatch fwd e) := by
  refine ⟨keys_foldl_insert_nodup fwd [] (by simp), ?_, ?_,
    lookupTable_buildReverse fwd⟩
  · intro q hq
    rcases mem_foldl_insert fwd [] q hq with h | h
    · cases h
    · exact h
  · intro hnd p hp
    rw [lookupTable_buildReverse]
    exact lastMatch_of_nodup fwd p hnd hp

/-- C6 witness: a collision-free entry is found reversed, and with the two
colliding entries `A` and `B` (in that order) the reverse entry for `"1"` is
the translation of `B` — the last one inserted. -/
theorem reverse_index_invariant_witness :
    lookupTable
      (buildReverse [("MONDO:0007739", ⟨"154700", "Marfan syndrome"⟩)])
      "154700" = some ⟨"MONDO:0007739", "Marfan syndrome"⟩ ∧
    lookupTable (buildReverse [("A", ⟨"1", "X"⟩), ("B", ⟨"1", "Y"⟩)]) "1" =
      some ⟨"B", "Y"⟩ := by
  refine ⟨(reverse_index_invariant
    [("MONDO:0007739", ⟨"154700", "Marfan syndrome"⟩)]).2.2.1 (by decide)
    ("MONDO:0007739", ⟨"154700", "Marfan syndrome"⟩) (by decide), ?_⟩
  rw [(reverse_index_invariant
    [("A", ⟨"1", "X"⟩), ("B", ⟨"1", "Y"⟩)]).2.2.2 "1"]
  decide

end OmimConverter
